import Mathlib

/-!
# Verification of `range-parser` (`src/lib.rs`)

A shallow embedding of the crate's parsing pipeline.  Rust strings are
modelled as `List Char` inside the pipeline, with `String` only at the API
boundary (`parse`, `parse_with`).  Rust's `str::split` on a non-empty literal
separator is `splitSep`, `str::contains` is `containsSeq`, `str::trim` is
`trimChars` (ASCII whitespace; all inputs of interest are ASCII), and
`T::from_str` for the signed-integer instance is `parseIntRust`
(optional sign, then a non-empty run of decimal digits).  The numeric type
`T` is instantiated with the unbounded signed integers `Int`; a separate
wrapping model `expand_u8_loop` captures the expansion loop at the
fixed-width type `u8` with release-mode (wrapping) arithmetic.

Recursive scanners are written with an explicit fuel argument (structural
recursion, so concrete instances evaluate by `decide`/`rfl`); the wrappers
supply enough fuel, and congruence lemmas below show the result does not
depend on the fuel once it is sufficient.
-/

namespace RangeParser

/-- ASCII whitespace, the fragment of Rust's `char::is_whitespace` needed here. -/
def isWS (c : Char) : Bool := c = ' ' || c = '\t' || c = '\n' || c = '\r'

/-- Decimal digit character test (`'0'..'9'`). -/
def isDigitCh (c : Char) : Bool := 48 ≤ c.toNat && c.toNat ≤ 57

/-- Numeric value of a digit character. -/
def digitVal (c : Char) : Nat := c.toNat - 48

/-- The digit character for `n < 10` (clamped to `'9'` above). -/
def digitCh (n : Nat) : Char :=
  if n = 0 then '0' else if n = 1 then '1' else if n = 2 then '2'
  else if n = 3 then '3' else if n = 4 then '4' else if n = 5 then '5'
  else if n = 6 then '6' else if n = 7 then '7' else if n = 8 then '8' else '9'

/-- Decimal digits of a natural number, most significant first; fuelled. -/
def natToDigitsF : Nat → Nat → List Char
  | 0, _ => []
  | f + 1, n =>
    if n < 10 then [digitCh n]
    else natToDigitsF f (n / 10) ++ [digitCh (n % 10)]

/-- Decimal digits of a natural number (`n + 1` fuel is always enough). -/
def natToDigits (n : Nat) : List Char := natToDigitsF (n + 1) n

/-- Rust `Display` for the signed-integer instance: minus sign, then digits. -/
def formatInt (v : Int) : List Char :=
  if v < 0 then '-' :: natToDigits (-v).toNat else natToDigits v.toNat

/-- Parse a non-empty all-digit string to its value (base 10). -/
def parseDigits (cs : List Char) : Option Nat :=
  if cs ≠ [] ∧ cs.all isDigitCh then
    some (cs.foldl (fun a c => a * 10 + digitVal c) 0)
  else none

/-- Rust `i*::from_str` on the unbounded-integer model: an optional `'-'` or
`'+'` sign followed by a non-empty run of decimal digits; anything else fails.
(The fixed-width bound check is not modelled: `T = Int` is unbounded.) -/
def parseIntRust (cs : List Char) : Option Int :=
  match cs with
  | [] => none
  | c :: rest =>
    if c = '-' then
      match parseDigits rest with
      | some n => some (-(n : Int))
      | none => none
    else if c = '+' then
      match parseDigits rest with
      | some n => some ((n : Int))
      | none => none
    else
      match parseDigits (c :: rest) with
      | some n => some ((n : Int))
      | none => none

/-- Rust `str::trim`: drop whitespace from both ends. -/
def trimChars (cs : List Char) : List Char :=
  ((cs.dropWhile isWS).reverse.dropWhile isWS).reverse

/-- Rust `str::split` on a literal separator, fuelled scan.  At each position,
if the (non-empty) separator is a prefix of the remaining input the current
fragment ends there; otherwise the head character joins the current fragment. -/
def splitSepF : Nat → List Char → List Char → List (List Char)
  | 0, _, _ => []
  | _ + 1, _, [] => [[]]
  | f + 1, sep, c :: rest =>
    if sep ≠ [] ∧ sep.isPrefixOf (c :: rest) then
      [] :: splitSepF f sep ((c :: rest).drop sep.length)
    else
      match splitSepF f sep rest with
      | [] => [[c]]
      | frag :: frags => (c :: frag) :: frags

/-- Rust `str::split` on a non-empty literal separator (`length + 1` fuel is
always enough).  For `sep = []` this returns `[s]`; Rust's empty pattern is
different, but the crate's separators are non-empty strings. -/
def splitSep (sep s : List Char) : List (List Char) := splitSepF (s.length + 1) sep s

/-- Rust `str::contains` for a literal pattern. -/
def containsSeq (sep : List Char) : List Char → Bool
  | [] => sep.isEmpty
  | c :: rest => sep.isPrefixOf (c :: rest) || containsSeq sep rest

/-- The error enum `RangeError` of `src/lib.rs`; payloads are the `String`s the
Rust constructors store. -/
inductive RangeError where
  | InvalidRangeSyntax (part : String)
  | NotANumber (part : String)
  | SeparatorsMustBeDifferent
  | StartBiggerThanEnd (part : String)
deriving DecidableEq, Repr

instance : DecidableEq (Except RangeError (List Int)) := fun a b =>
  match a, b with
  | .error e, .error e' =>
    if h : e = e' then .isTrue (by rw [h])
    else .isFalse (by simp only [Except.error.injEq]; exact h)
  | .error _, .ok _ => .isFalse (by simp)
  | .ok _, .error _ => .isFalse (by simp)
  | .ok l, .ok l' =>
    if h : l = l' then .isTrue (by rw [h])
    else .isFalse (by simp only [Except.ok.injEq]; exact h)

instance : DecidableEq (Except RangeError Int) := fun a b =>
  match a, b with
  | .error e, .error e' =>
    if h : e = e' then .isTrue (by rw [h])
    else .isFalse (by simp only [Except.error.injEq]; exact h)
  | .error _, .ok _ => .isFalse (by simp)
  | .ok _, .error _ => .isFalse (by simp)
  | .ok v, .ok v' =>
    if h : v = v' then .isTrue (by rw [h])
    else .isFalse (by simp only [Except.ok.injEq]; exact h)

/-- Modelled from the spec: `src/unit.rs` (the `Unit` trait and its `unit()`
constant) is not present under `src/`; the spec defines the unit increment as
`1` for the standard integer types. -/
def unitInt : Int := 1

/-- The expansion loop `while x <= end { acc.push(x); x = x + T::unit() }` of
`parse_value_range`, fuelled. -/
def expandLoopF : Nat → Int → Int → List Int
  | 0, _, _ => []
  | f + 1, x, e => if x ≤ e then x :: expandLoopF f (x + unitInt) e else []

/-- The expansion loop at `T = Int`: `(e + 1 - x).toNat` fuel is exactly the
number of iterations, so this is the loop's exact behaviour (see
`expandLoop_unfold`). -/
def expandLoop (x e : Int) : List Int := expandLoopF (e + 1 - x).toNat x e

/-- The function `parse_as_t` of `src/lib.rs`: trim, parse, and report `NotANumber` with the
original (untrimmed) fragment on failure. -/
def parse_as_t (part : List Char) : Except RangeError Int :=
  match parseIntRust (trimChars part) with
  | some v => .ok v
  | none => .error (.NotANumber (String.mk part))

/-- The tail of `parse_value_range` after `(start, end)` is resolved: the
`start > end` check and the expansion loop. -/
def finishRange (acc : List Int) (part : List Char) (start e : Int) :
    Except RangeError (List Int) :=
  if start > e then .error (.StartBiggerThanEnd (String.mk part))
  else .ok (acc ++ expandLoop start e)

/-- The function `parse_value_range` of `src/lib.rs`: split the part on the range separator
and dispatch on the fragment count, exactly as the Rust `match` does. -/
def parse_value_range (acc : List Int) (part : List Char)
    (range_separator : List Char) : Except RangeError (List Int) :=
  match splitSep range_separator part with
  | [p0, p1] =>
    if p0 = [] then
      match parse_as_t ('-' :: p1) with
      | .error err => .error err
      | .ok e => .ok (acc ++ [e])
    else
      match parse_as_t p0 with
      | .error err => .error err
      | .ok s =>
        match parse_as_t p1 with
        | .error err => .error err
        | .ok e => finishRange acc part s e
  | [p0, p1, p2] =>
    if p0 = [] then
      match parse_as_t ('-' :: p1) with
      | .error err => .error err
      | .ok s =>
        match parse_as_t p2 with
        | .error err => .error err
        | .ok e => finishRange acc part s e
    else .error (.StartBiggerThanEnd (String.mk part))
  | [_, p1, _, p3] =>
    match parse_as_t ('-' :: p1) with
    | .error err => .error err
    | .ok s =>
      match parse_as_t ('-' :: p3) with
      | .error err => .error err
      | .ok e => finishRange acc part s e
  | _ => .error (.InvalidRangeSyntax (String.mk part))

/-- The function `parse_part` of `src/lib.rs`. -/
def parse_part (acc : List Int) (part : List Char) (range_separator : List Char) :
    Except RangeError (List Int) :=
  if containsSeq range_separator part then parse_value_range acc part range_separator
  else
    match parse_as_t part with
    | .error err => .error err
    | .ok v => .ok (acc ++ [v])

/-- The `for part in range_str.split(...)` loop shared by `parse` and
`parse_with`: fold `parse_part` over the parts, aborting at the first error. -/
def parse_parts (range_separator : List Char) (acc : List Int) :
    List (List Char) → Except RangeError (List Int)
  | [] => .ok acc
  | p :: ps =>
    match parse_part acc p range_separator with
    | .error err => .error err
    | .ok acc2 => parse_parts range_separator acc2 ps

/-- The function `parse` of `src/lib.rs` at `T = Int`: default separators `","` and `"-"`. -/
def parse (range_str : String) : Except RangeError (List Int) :=
  parse_parts ['-'] [] (splitSep [','] range_str.data)

/-- The function `parse_with` of `src/lib.rs` at `T = Int`. -/
def parse_with (range_str value_separator range_separator : String) :
    Except RangeError (List Int) :=
  if value_separator = range_separator then .error .SeparatorsMustBeDifferent
  else parse_parts range_separator.data []
    (splitSep value_separator.data range_str.data)

/-- The values a single part contributes to the output (empty on error);
used to state the left-to-right/in-place ordering of the output. -/
def partOutput (p : List Char) : List Int :=
  match parse_part [] p ['-'] with
  | .ok l => l
  | .error _ => []

/-- Modelled from the spec: the unit increment of `u8` (`src/unit.rs` is not
present under `src/`; the spec defines it as `1` for standard integer types). -/
def unitU8 : Nat := 1

/-- Addition on `u8` with Rust release-mode (wrapping) semantics. -/
def addU8 (x y : Nat) : Nat := (x + y) % 256

/-- The expansion loop of `parse_value_range` at `T = u8` with wrapping
arithmetic, fuelled: `none` means the loop has not finished within `fuel`
iterations. -/
def expand_u8_loop : Nat → Nat → Nat → List Nat → Option (List Nat)
  | 0, _, _, _ => none
  | f + 1, x, e, acc =>
    if x ≤ e then expand_u8_loop f (addU8 x unitU8) e (acc ++ [x]) else some acc

/-! ### Digit and character lemmas -/

lemma digitCh_spec (n : Nat) (h : n < 10) :
    isDigitCh (digitCh n) = true ∧ digitVal (digitCh n) = n ∧
    digitCh n ≠ '-' ∧ digitCh n ≠ '+' ∧ digitCh n ≠ ',' := by
  interval_cases n <;> exact ⟨by decide, by decide, by decide, by decide, by decide⟩

lemma digit_not_ws (c : Char) (h : isDigitCh c = true) : isWS c = false := by
  by_contra hw
  have hw2 : isWS c = true := by simpa using hw
  have hcases : c = ' ' ∨ c = '\t' ∨ c = '\n' ∨ c = '\r' := by
    simpa [isWS, or_assoc] using hw2
  rcases hcases with h1 | h1 | h1 | h1 <;> subst h1 <;> exact absurd h (by decide)

lemma digit_ne_minus (c : Char) (h : isDigitCh c = true) : c ≠ '-' :=
  fun he => absurd (he ▸ h) (by decide)

lemma digit_ne_plus (c : Char) (h : isDigitCh c = true) : c ≠ '+' :=
  fun he => absurd (he ▸ h) (by decide)

lemma digit_ne_comma (c : Char) (h : isDigitCh c = true) : c ≠ ',' :=
  fun he => absurd (he ▸ h) (by decide)

lemma natToDigitsF_digits :
    ∀ (f n : Nat), n < f → ∀ c ∈ natToDigitsF f n, isDigitCh c = true := by
  intro f
  induction f with
  | zero => intro n h; omega
  | succ f ih =>
    intro n h c hc
    simp only [natToDigitsF] at hc
    by_cases h10 : n < 10
    · rw [if_pos h10] at hc
      simp only [List.mem_singleton] at hc
      subst hc
      exact (digitCh_spec n h10).1
    · rw [if_neg h10] at hc
      rcases List.mem_append.mp hc with hl | hr
      · have hdiv : n / 10 < n := Nat.div_lt_self (by omega) (by omega)
        exact ih (n / 10) (by omega) c hl
      · simp only [List.mem_singleton] at hr
        subst hr
        exact (digitCh_spec (n % 10) (Nat.mod_lt _ (by omega))).1

lemma natToDigitsF_ne_nil : ∀ (f n : Nat), n < f → natToDigitsF f n ≠ [] := by
  intro f n h
  match f, h with
  | f + 1, _ =>
    simp only [natToDigitsF]
    by_cases h10 : n < 10
    · rw [if_pos h10]; simp
    · rw [if_neg h10]; simp

lemma natToDigitsF_foldl :
    ∀ (f n : Nat), n < f →
      (natToDigitsF f n).foldl (fun a c => a * 10 + digitVal c) 0 = n := by
  intro f
  induction f with
  | zero => intro n h; omega
  | succ f ih =>
    intro n h
    simp only [natToDigitsF]
    by_cases h10 : n < 10
    · rw [if_pos h10]
      simp only [List.foldl_cons, List.foldl_nil]
      rw [(digitCh_spec n h10).2.1]
      omega
    · rw [if_neg h10]
      rw [List.foldl_append]
      have hdiv : n / 10 < n := Nat.div_lt_self (by omega) (by omega)
      rw [ih (n / 10) (by omega)]
      simp only [List.foldl_cons, List.foldl_nil]
      rw [(digitCh_spec (n % 10) (Nat.mod_lt _ (by omega))).2.1]
      omega

lemma natToDigits_digits (n : Nat) : ∀ c ∈ natToDigits n, isDigitCh c = true :=
  natToDigitsF_digits (n + 1) n (Nat.lt_succ_self n)

lemma natToDigits_ne_nil (n : Nat) : natToDigits n ≠ [] :=
  natToDigitsF_ne_nil (n + 1) n (Nat.lt_succ_self n)

lemma parseDigits_natToDigits (n : Nat) : parseDigits (natToDigits n) = some n := by
  unfold natToDigits parseDigits
  rw [if_pos]
  · rw [natToDigitsF_foldl (n + 1) n (Nat.lt_succ_self n)]
  · refine ⟨natToDigitsF_ne_nil (n + 1) n (Nat.lt_succ_self n), ?_⟩
    rw [List.all_eq_true]
    exact natToDigitsF_digits (n + 1) n (Nat.lt_succ_self n)

lemma dropWhile_eq_self (p : Char → Bool) (cs : List Char)
    (h : ∀ c ∈ cs, p c = false) : cs.dropWhile p = cs := by
  cases cs with
  | nil => rfl
  | cons c t => simp [List.dropWhile_cons, h c (List.mem_cons_self c t)]

lemma trimChars_eq_self (cs : List Char) (h : ∀ c ∈ cs, isWS c = false) :
    trimChars cs = cs := by
  unfold trimChars
  rw [dropWhile_eq_self isWS cs h]
  rw [dropWhile_eq_self isWS cs.reverse (fun c hc => h c (List.mem_reverse.mp hc))]
  exact List.reverse_reverse cs

lemma parse_as_t_natToDigits (n : Nat) : parse_as_t (natToDigits n) = .ok (n : Int) := by
  unfold parse_as_t
  rw [trimChars_eq_self _ (fun c hc => digit_not_ws c (natToDigits_digits n c hc))]
  obtain ⟨c, rest, hcr⟩ := List.exists_cons_of_ne_nil (natToDigits_ne_nil n)
  have hcd : isDigitCh c = true := natToDigits_digits n c (hcr ▸ List.mem_cons_self c rest)
  rw [hcr]
  simp only [parseIntRust]
  rw [if_neg (digit_ne_minus c hcd), if_neg (digit_ne_plus c hcd)]
  rw [← hcr, parseDigits_natToDigits n]

lemma parse_as_t_neg_natToDigits (n : Nat) :
    parse_as_t ('-' :: natToDigits n) = .ok (-(n : Int)) := by
  unfold parse_as_t
  rw [trimChars_eq_self]
  · simp only [parseIntRust, if_pos trivial]
    rw [parseDigits_natToDigits n]
  · intro c hc
    rcases List.mem_cons.mp hc with h1 | h1
    · subst h1; decide
    · exact digit_not_ws c (natToDigits_digits n c h1)

/-! ### Splitter lemmas -/

lemma splitSepF_congr (sep : List Char) :
    ∀ (n : Nat) (s : List Char) (f g : Nat), s.length < f → s.length < g →
      s.length ≤ n → splitSepF f sep s = splitSepF g sep s := by
  intro n
  induction n with
  | zero =>
    intro s f g hf hg hn
    have hs : s = [] := List.eq_nil_of_length_eq_zero (Nat.le_zero.mp hn)
    subst hs
    match f, g, hf, hg with
    | f + 1, g + 1, _, _ => rfl
  | succ n ih =>
    intro s f g hf hg hn
    match s, hf, hg, hn with
    | [], hf, hg, _ =>
      match f, g, hf, hg with
      | f + 1, g + 1, _, _ => rfl
    | c :: rest, hf, hg, hn =>
      match f, g, hf, hg with
      | f + 1, g + 1, hf, hg =>
        simp only [splitSepF]
        have hlf : rest.length + 1 ≤ f := by
          simpa using Nat.lt_succ_iff.mp hf
        have hlg : rest.length + 1 ≤ g := by
          simpa using Nat.lt_succ_iff.mp hg
        have hln : rest.length ≤ n := by
          simpa using Nat.lt_succ_iff.mp (Nat.lt_succ_of_le hn)
        by_cases hc : sep ≠ [] ∧ sep.isPrefixOf (c :: rest)
        · rw [if_pos hc, if_pos hc]
          have hsep : 1 ≤ sep.length := by
            cases sep with
            | nil => exact absurd rfl hc.1
            | cons a as => simp
          have hdrop : ((c :: rest).drop sep.length).length ≤ rest.length := by
            rw [List.length_drop]
            simp only [List.length_cons]
            omega
          rw [ih ((c :: rest).drop sep.length) f g (by omega) (by omega) (by omega)]
        · rw [if_neg hc, if_neg hc]
          rw [ih rest f g (by omega) (by omega) hln]

lemma splitSep_nil (sep : List Char) : splitSep sep [] = [[]] := rfl

lemma splitSep_cons_match (sep : List Char) (c : Char) (rest : List Char)
    (h1 : sep ≠ []) (h2 : sep.isPrefixOf (c :: rest)) :
    splitSep sep (c :: rest) = [] :: splitSep sep ((c :: rest).drop sep.length) := by
  have hsep : 1 ≤ sep.length := by
    cases sep with
    | nil => exact absurd rfl h1
    | cons a as => simp
  have hdrop : ((c :: rest).drop sep.length).length ≤ rest.length := by
    rw [List.length_drop]
    simp only [List.length_cons]
    omega
  show splitSepF ((c :: rest).length + 1) sep (c :: rest) = _
  simp only [List.length_cons, splitSepF]
  rw [if_pos ⟨h1, h2⟩]
  congr 1
  exact splitSepF_congr sep rest.length _ _ _ (by omega) (by omega) (by omega)

lemma splitSep_cons_nomatch (sep : List Char) (c : Char) (rest : List Char)
    (h : ¬(sep ≠ [] ∧ sep.isPrefixOf (c :: rest))) :
    splitSep sep (c :: rest) =
      match splitSep sep rest with
      | [] => [[c]]
      | frag :: frags => (c :: frag) :: frags := by
  show splitSepF ((c :: rest).length + 1) sep (c :: rest) = _
  simp only [List.length_cons, splitSepF]
  rw [if_neg h]
  rfl

lemma isPrefixOf_single (c x : Char) (t : List Char) :
    [c].isPrefixOf (x :: t) = (c == x) := by
  simp [List.isPrefixOf]

lemma splitSep_single_head (c : Char) (ys : List Char) :
    splitSep [c] (c :: ys) = [] :: splitSep [c] ys := by
  have h := splitSep_cons_match [c] c ys (by simp) (by simp [List.isPrefixOf])
  simpa using h

lemma splitSep_no_occ (c : Char) :
    ∀ s : List Char, (∀ x ∈ s, x ≠ c) → splitSep [c] s = [s] := by
  intro s
  induction s with
  | nil => intro _; rfl
  | cons x t ih =>
    intro h
    have hx : x ≠ c := h x (List.mem_cons_self x t)
    have hne : ¬([c] ≠ [] ∧ ([c] : List Char).isPrefixOf (x :: t)) := by
      rw [isPrefixOf_single]
      simp only [ne_eq, not_and]
      intro _
      simp only [beq_iff_eq]
      exact fun he => hx he.symm
    rw [splitSep_cons_nomatch [c] x t hne]
    rw [ih (fun y hy => h y (List.mem_cons_of_mem x hy))]

lemma splitSep_around (c : Char) :
    ∀ (xs ys : List Char), (∀ x ∈ xs, x ≠ c) →
      splitSep [c] (xs ++ c :: ys) = xs :: splitSep [c] ys := by
  intro xs
  induction xs with
  | nil =>
    intro ys _
    simpa using splitSep_single_head c ys
  | cons x xs ih =>
    intro ys h
    have hx : x ≠ c := h x (List.mem_cons_self x xs)
    have hne : ¬([c] ≠ [] ∧ ([c] : List Char).isPrefixOf (x :: (xs ++ c :: ys))) := by
      rw [isPrefixOf_single]
      simp only [ne_eq, not_and]
      intro _
      simp only [beq_iff_eq]
      exact fun he => hx he.symm
    have hstep := splitSep_cons_nomatch [c] x (xs ++ c :: ys) hne
    rw [List.cons_append]
    rw [hstep, ih ys (fun y hy => h y (List.mem_cons_of_mem x hy))]

lemma containsSeq_of_mem (c : Char) :
    ∀ s : List Char, c ∈ s → containsSeq [c] s = true := by
  intro s
  induction s with
  | nil => intro h; exact absurd h (List.not_mem_nil c)
  | cons x t ih =>
    intro h
    simp only [containsSeq, isPrefixOf_single, Bool.or_eq_true, beq_iff_eq]
    rcases List.mem_cons.mp h with h1 | h1
    · exact Or.inl h1
    · exact Or.inr (ih h1)

lemma splitSep_of_not_contains (sep : List Char) :
    ∀ s : List Char, containsSeq sep s = false → splitSep sep s = [s] := by
  intro s
  induction s with
  | nil => intro _; rfl
  | cons c t ih =>
    intro h
    simp only [containsSeq, Bool.or_eq_false_iff] at h
    have hne : ¬(sep ≠ [] ∧ sep.isPrefixOf (c :: t)) := by
      intro hc
      rw [hc.2] at h
      exact absurd h.1 (by simp)
    rw [splitSep_cons_nomatch sep c t hne, ih h.2]

/-! ### Expansion-loop lemmas -/

lemma expandLoopF_spec :
    ∀ (f : Nat) (x e : Int), (e + 1 - x).toNat = f →
      expandLoopF f x e = (List.range f).map (fun i : Nat => x + (i : Int)) := by
  intro f
  induction f with
  | zero => intro x e _; rfl
  | succ f ih =>
    intro x e h
    have hx : x ≤ e := by omega
    simp only [expandLoopF, unitInt, if_pos hx]
    rw [ih (x + 1) e (by omega)]
    rw [List.range_succ_eq_map]
    simp only [List.map_cons, List.map_map, Nat.cast_zero, add_zero]
    congr 1
    apply List.map_congr_left
    intro i _
    simp only [Function.comp_apply, Nat.cast_succ]
    ring

lemma expandLoop_eq (x e : Int) :
    expandLoop x e = (List.range (e + 1 - x).toNat).map (fun i : Nat => x + (i : Int)) :=
  expandLoopF_spec _ x e rfl

/-- The function `expandLoop` satisfies the defining equation of the Rust `while` loop. -/
lemma expandLoop_unfold (x e : Int) :
    expandLoop x e = if x ≤ e then x :: expandLoop (x + unitInt) e else [] := by
  by_cases h : x ≤ e
  · rw [if_pos h]
    show expandLoopF (e + 1 - x).toNat x e = _
    have hn : (e + 1 - x).toNat = (e + 1 - (x + 1)).toNat + 1 := by omega
    rw [hn]
    simp only [expandLoopF, if_pos h]
    rfl
  · rw [if_neg h]
    show expandLoopF (e + 1 - x).toNat x e = []
    have hn : (e + 1 - x).toNat = 0 := by omega
    rw [hn]
    rfl

/-! ### Accumulator lemmas: each part only appends to the accumulator -/

lemma finishRange_append (acc : List Int) (part : List Char) (s e : Int) :
    finishRange acc part s e = (finishRange [] part s e).map (fun l => acc ++ l) := by
  unfold finishRange
  by_cases h : s > e
  · rw [if_pos h, if_pos h]; rfl
  · rw [if_neg h, if_neg h]; simp [Except.map]

lemma parse_value_range_append (acc : List Int) (part sep : List Char) :
    parse_value_range acc part sep =
      (parse_value_range [] part sep).map (fun l => acc ++ l) := by
  rcases hs : splitSep sep part with _ | ⟨p0, _ | ⟨p1, _ | ⟨p2, _ | ⟨p3, _ | ⟨p4, ps⟩⟩⟩⟩⟩
  · simp [parse_value_range, hs, Except.map]
  · simp [parse_value_range, hs, Except.map]
  · by_cases hp : p0 = []
    · rcases he : parse_as_t ('-' :: p1) with err | v
      · simp [parse_value_range, hs, hp, he, Except.map]
      · simp [parse_value_range, hs, hp, he, Except.map]
    · rcases h0 : parse_as_t p0 with err | s0
      · simp [parse_value_range, hs, hp, h0, Except.map]
      · rcases h1 : parse_as_t p1 with err | e0
        · simp [parse_value_range, hs, hp, h0, h1, Except.map]
        · simp only [parse_value_range, hs, if_neg hp, h0, h1]
          exact finishRange_append acc part s0 e0
  · by_cases hp : p0 = []
    · rcases h1 : parse_as_t ('-' :: p1) with err | s0
      · simp [parse_value_range, hs, hp, h1, Except.map]
      · rcases h2 : parse_as_t p2 with err | e0
        · simp [parse_value_range, hs, hp, h1, h2, Except.map]
        · simp only [parse_value_range, hs, if_pos hp, h1, h2]
          exact finishRange_append acc part s0 e0
    · simp [parse_value_range, hs, hp, Except.map]
  · rcases h1 : parse_as_t ('-' :: p1) with err | s0
    · simp [parse_value_range, hs, h1, Except.map]
    · rcases h3 : parse_as_t ('-' :: p3) with err | e0
      · simp [parse_value_range, hs, h1, h3, Except.map]
      · simp only [parse_value_range, hs, h1, h3]
        exact finishRange_append acc part s0 e0
  · simp [parse_value_range, hs, Except.map]

lemma parse_part_append (acc : List Int) (part sep : List Char) :
    parse_part acc part sep = (parse_part [] part sep).map (fun l => acc ++ l) := by
  unfold parse_part
  by_cases hc : containsSeq sep part = true
  · rw [if_pos hc, if_pos hc]
    exact parse_value_range_append acc part sep
  · rw [if_neg hc, if_neg hc]
    rcases h : parse_as_t part with err | v <;> simp [h, Except.map]

lemma parse_parts_flatten (sep : List Char) :
    ∀ (ps : List (List Char)) (acc l : List Int),
      parse_parts sep acc ps = .ok l →
      l = acc ++ (ps.map (fun p =>
        match parse_part [] p sep with
        | .ok l2 => l2
        | .error _ => [])).flatten := by
  intro ps
  induction ps with
  | nil =>
    intro acc l h
    simp only [parse_parts, Except.ok.injEq] at h
    simp [h]
  | cons p ps ih =>
    intro acc l h
    simp only [parse_parts] at h
    rcases hp : parse_part acc p sep with err | acc2
    · rw [hp] at h; exact absurd h (by simp)
    · rw [hp] at h
      have hsplit := parse_part_append acc p sep
      rw [hp] at hsplit
      rcases h0 : parse_part [] p sep with err | l0
      · rw [h0] at hsplit; exact absurd hsplit (by simp [Except.map])
      · rw [h0] at hsplit
        have hacc2 : acc2 = acc ++ l0 := by simpa [Except.map] using hsplit
        rw [ih acc2 l h, hacc2, List.map_cons, List.flatten_cons, h0]
        simp [List.append_assoc]

/-! ### Error-shape lemmas -/

lemma parse_as_t_error_shape (p : List Char) (err : RangeError)
    (h : parse_as_t p = .error err) : err = .NotANumber (String.mk p) := by
  unfold parse_as_t at h
  rcases hp : parseIntRust (trimChars p) with _ | v
  · rw [hp] at h
    have := h.symm
    simpa using this
  · rw [hp] at h
    exact absurd h (by simp)

lemma finishRange_not_sep (acc : List Int) (part : List Char) (s e : Int) :
    finishRange acc part s e ≠ .error .SeparatorsMustBeDifferent := by
  unfold finishRange
  by_cases h : s > e <;> simp [h]

lemma parse_as_t_ok_or_nan (p : List Char) :
    (∃ v, parse_as_t p = .ok v) ∨ parse_as_t p = .error (.NotANumber (String.mk p)) := by
  rcases h : parse_as_t p with err | v
  · exact Or.inr (by rw [parse_as_t_error_shape p err h])
  · exact Or.inl ⟨v, rfl⟩

lemma parse_value_range_not_sep (acc : List Int) (part sep : List Char) :
    parse_value_range acc part sep ≠ .error .SeparatorsMustBeDifferent := by
  rcases hs : splitSep sep part with _ | ⟨p0, _ | ⟨p1, _ | ⟨p2, _ | ⟨p3, _ | ⟨p4, ps⟩⟩⟩⟩⟩
  · simp [parse_value_range, hs]
  · simp [parse_value_range, hs]
  · by_cases hp : p0 = []
    · rcases he : parse_as_t ('-' :: p1) with err | v
      · have := parse_as_t_error_shape _ _ he
        simp [parse_value_range, hs, hp, he, this]
      · simp [parse_value_range, hs, hp, he]
    · rcases h0 : parse_as_t p0 with err | s0
      · have := parse_as_t_error_shape _ _ h0
        simp [parse_value_range, hs, hp, h0, this]
      · rcases h1 : parse_as_t p1 with err | e0
        · have := parse_as_t_error_shape _ _ h1
          simp [parse_value_range, hs, hp, h0, h1, this]
        · simp only [parse_value_range, hs, if_neg hp, h0, h1]
          exact finishRange_not_sep acc part s0 e0
  · by_cases hp : p0 = []
    · rcases h1 : parse_as_t ('-' :: p1) with err | s0
      · have := parse_as_t_error_shape _ _ h1
        simp [parse_value_range, hs, hp, h1, this]
      · rcases h2 : parse_as_t p2 with err | e0
        · have := parse_as_t_error_shape _ _ h2
          simp [parse_value_range, hs, hp, h1, h2, this]
        · simp only [parse_value_range, hs, if_pos hp, h1, h2]
          exact finishRange_not_sep acc part s0 e0
    · simp [parse_value_range, hs, hp]
  · rcases h1 : parse_as_t ('-' :: p1) with err | s0
    · have := parse_as_t_error_shape _ _ h1
      simp [parse_value_range, hs, h1, this]
    · rcases h3 : parse_as_t ('-' :: p3) with err | e0
      · have := parse_as_t_error_shape _ _ h3
        simp [parse_value_range, hs, h1, h3, this]
      · simp only [parse_value_range, hs, h1, h3]
        exact finishRange_not_sep acc part s0 e0
  · simp [parse_value_range, hs]

lemma parse_part_not_sep (acc : List Int) (part sep : List Char) :
    parse_part acc part sep ≠ .error .SeparatorsMustBeDifferent := by
  unfold parse_part
  by_cases hc : containsSeq sep part = true
  · rw [if_pos hc]
    exact parse_value_range_not_sep acc part sep
  · rw [if_neg hc]
    rcases h : parse_as_t part with err | v
    · have := parse_as_t_error_shape _ _ h
      simp [h, this]
    · simp [h]

lemma parse_parts_not_sep (sep : List Char) :
    ∀ (ps : List (List Char)) (acc : List Int),
      parse_parts sep acc ps ≠ .error .SeparatorsMustBeDifferent := by
  intro ps
  induction ps with
  | nil => intro acc; simp [parse_parts]
  | cons p ps ih =>
    intro acc
    simp only [parse_parts]
    rcases hp : parse_part acc p sep with err | acc2
    · intro h
      simp only [Except.error.injEq] at h
      exact parse_part_not_sep acc p sep (by rw [hp, h])
    · exact ih acc2

/-! ### Parsing the formatted pair string `f"{a}-{b}"` -/

/-- The string `f"{a}-{b}"` (Rust `Display` of `a`, a dash, `Display` of `b`),
as a character list. -/
def formatPair (a b : Int) : List Char := formatInt a ++ '-' :: formatInt b

lemma formatInt_mem (v : Int) (c : Char) (hc : c ∈ formatInt v) :
    isDigitCh c = true ∨ c = '-' := by
  unfold formatInt at hc
  by_cases h : v < 0
  · rw [if_pos h] at hc
    rcases List.mem_cons.mp hc with h1 | h1
    · exact Or.inr h1
    · exact Or.inl (natToDigits_digits _ c h1)
  · rw [if_neg h] at hc
    exact Or.inl (natToDigits_digits _ c hc)

lemma formatPair_ne_comma (a b : Int) : ∀ c ∈ formatPair a b, c ≠ ',' := by
  intro c hc
  unfold formatPair at hc
  have hor : isDigitCh c = true ∨ c = '-' := by
    rcases List.mem_append.mp hc with h1 | h1
    · exact formatInt_mem a c h1
    · rcases List.mem_cons.mp h1 with h2 | h2
      · exact Or.inr h2
      · exact formatInt_mem b c h2
  rcases hor with h1 | h1
  · exact digit_ne_comma c h1
  · subst h1; decide

lemma natToDigits_ne_minus (n : Nat) : ∀ x ∈ natToDigits n, x ≠ '-' :=
  fun x hx => digit_ne_minus x (natToDigits_digits n x hx)

lemma splitSep_formatPair (a b : Int) :
    splitSep ['-'] (formatPair a b) =
      if a < 0 then
        if b < 0 then [[], natToDigits (-a).toNat, [], natToDigits (-b).toNat]
        else [[], natToDigits (-a).toNat, natToDigits b.toNat]
      else
        if b < 0 then [natToDigits a.toNat, [], natToDigits (-b).toNat]
        else [natToDigits a.toNat, natToDigits b.toNat] := by
  by_cases ha : a < 0 <;> by_cases hb : b < 0
  · rw [if_pos ha, if_pos hb]
    have hpair : formatPair a b =
        '-' :: (natToDigits (-a).toNat ++ '-' :: ('-' :: natToDigits (-b).toNat)) := by
      unfold formatPair formatInt
      rw [if_pos ha, if_pos hb, List.cons_append]
    rw [hpair, splitSep_single_head,
      splitSep_around '-' _ _ (natToDigits_ne_minus (-a).toNat),
      splitSep_single_head, splitSep_no_occ '-' _ (natToDigits_ne_minus (-b).toNat)]
  · rw [if_pos ha, if_neg hb]
    have hpair : formatPair a b =
        '-' :: (natToDigits (-a).toNat ++ '-' :: natToDigits b.toNat) := by
      unfold formatPair formatInt
      rw [if_pos ha, if_neg hb, List.cons_append]
    rw [hpair, splitSep_single_head,
      splitSep_around '-' _ _ (natToDigits_ne_minus (-a).toNat),
      splitSep_no_occ '-' _ (natToDigits_ne_minus b.toNat)]
  · rw [if_neg ha, if_pos hb]
    have hpair : formatPair a b =
        natToDigits a.toNat ++ '-' :: ('-' :: natToDigits (-b).toNat) := by
      unfold formatPair formatInt
      rw [if_neg ha, if_pos hb]
    rw [hpair, splitSep_around '-' _ _ (natToDigits_ne_minus a.toNat),
      splitSep_single_head, splitSep_no_occ '-' _ (natToDigits_ne_minus (-b).toNat)]
  · rw [if_neg ha, if_neg hb]
    have hpair : formatPair a b =
        natToDigits a.toNat ++ '-' :: natToDigits b.toNat := by
      unfold formatPair formatInt
      rw [if_neg ha, if_neg hb]
    rw [hpair, splitSep_around '-' _ _ (natToDigits_ne_minus a.toNat),
      splitSep_no_occ '-' _ (natToDigits_ne_minus b.toNat)]

lemma parse_as_t_nonneg (a : Int) (ha : ¬ a < 0) :
    parse_as_t (natToDigits a.toNat) = .ok a := by
  rw [parse_as_t_natToDigits, Int.toNat_of_nonneg (not_lt.mp ha)]

lemma parse_as_t_neg (a : Int) (ha : a < 0) :
    parse_as_t ('-' :: natToDigits (-a).toNat) = .ok a := by
  rw [parse_as_t_neg_natToDigits, Int.toNat_of_nonneg (by omega : (0 : Int) ≤ -a), neg_neg]

lemma parse_value_range_formatPair (acc : List Int) (a b : Int) :
    parse_value_range acc (formatPair a b) ['-'] =
      finishRange acc (formatPair a b) a b := by
  have hs := splitSep_formatPair a b
  by_cases ha : a < 0 <;> by_cases hb : b < 0
  · rw [if_pos ha, if_pos hb] at hs
    simp [parse_value_range, hs, parse_as_t_neg a ha, parse_as_t_neg b hb]
  · rw [if_pos ha, if_neg hb] at hs
    simp [parse_value_range, hs, parse_as_t_neg a ha, parse_as_t_nonneg b hb]
  · rw [if_neg ha, if_pos hb] at hs
    have hgt : a > b := by omega
    simp [parse_value_range, hs, natToDigits_ne_nil a.toNat, finishRange, hgt]
  · rw [if_neg ha, if_neg hb] at hs
    simp [parse_value_range, hs, natToDigits_ne_nil a.toNat,
      parse_as_t_nonneg a ha, parse_as_t_nonneg b hb]

lemma parse_formatPair (a b : Int) :
    parse (String.mk (formatPair a b)) = finishRange [] (formatPair a b) a b := by
  have hcont : containsSeq ['-'] (formatPair a b) = true := by
    refine containsSeq_of_mem '-' _ ?_
    unfold formatPair
    exact List.mem_append_right _ (List.mem_cons_self _ _)
  have hpp : parse_part [] (formatPair a b) ['-'] =
      finishRange [] (formatPair a b) a b := by
    unfold parse_part
    rw [if_pos hcont]
    exact parse_value_range_formatPair [] a b
  show parse_parts ['-'] [] (splitSep [','] (String.mk (formatPair a b)).data) = _
  rw [show (String.mk (formatPair a b)).data = formatPair a b from rfl]
  rw [splitSep_no_occ ',' _ (formatPair_ne_comma a b)]
  simp only [parse_parts, hpp]
  rcases hr : finishRange [] (formatPair a b) a b with err | l
  · rfl
  · simp [parse_parts]

/-! ### The claims -/

/-- C1: for every pair `a ≤ b`, `parse` on the string `f"{a}-{b}"` succeeds
and returns the full inclusive unit-stepped sequence `a, a+1, …, b`, whose
length is `b - a + 1`. -/
theorem c1_parse_full_inclusive_range (a b : Int) (h : a ≤ b) :
    parse (String.mk (formatPair a b)) =
      .ok ((List.range (b - a + 1).toNat).map (fun i : Nat => a + (i : Int))) ∧
    (((List.range (b - a + 1).toNat).map (fun i : Nat => a + (i : Int))).length : Int) =
      b - a + 1 := by
  constructor
  · rw [parse_formatPair a b]
    unfold finishRange
    rw [if_neg (by omega : ¬ a > b), expandLoop_eq,
      show b + 1 - a = b - a + 1 by ring]
    simp
  · simp only [List.length_map, List.length_range]
    rw [Int.toNat_of_nonneg (by omega)]

theorem c1_witness :
    ((-5 : Int) ≤ 3) ∧
    (parse (String.mk (formatPair (-5) 3)) =
        .ok ((List.range ((3 : Int) - (-5) + 1).toNat).map
          (fun i : Nat => (-5 : Int) + (i : Int))) ∧
      (((List.range ((3 : Int) - (-5) + 1).toNat).map
          (fun i : Nat => (-5 : Int) + (i : Int))).length : Int) =
        (3 : Int) - (-5) + 1) :=
  ⟨by decide, c1_parse_full_inclusive_range (-5) 3 (by decide)⟩

/-- C2: negative-number disambiguation with the default separators:
`parse "-5"` yields `[-5]`, `parse "-5--1"` yields `[-5,-4,-3,-2,-1]`, and
`parse "-5-3"` yields `[-5,…,3]`. -/
theorem c2_negative_number_disambiguation :
    parse "-5" = .ok [-5] ∧
    parse "-5--1" = .ok [-5, -4, -3, -2, -1] ∧
    parse "-5-3" = .ok [-5, -4, -3, -2, -1, 0, 1, 2, 3] := by
  refine ⟨by decide, by decide, by decide⟩

/-- C3 counterexample: the part `"1-3-5"` (3 fragments, first non-empty) fails
with `StartBiggerThanEnd`, not with `InvalidRangeSyntax` as the claim states. -/
theorem c3_invalid_syntax_counterexample :
    parse "1-3-5" = .error (.StartBiggerThanEnd "1-3-5") ∧
    parse "1-3-5" ≠ .error (.InvalidRangeSyntax "1-3-5") := by
  refine ⟨by decide, by decide⟩

/-- C3 (amended): for every part that splits on the range separator into
exactly 3 fragments whose first fragment is non-empty, parsing fails with the
`StartBiggerThanEnd` error naming that part. -/
theorem c3_three_fragments_start_bigger_than_end (sep part : List Char)
    (acc : List Int) (p0 p1 p2 : List Char)
    (hsplit : splitSep sep part = [p0, p1, p2]) (h0 : p0 ≠ []) :
    parse_value_range acc part sep = .error (.StartBiggerThanEnd (String.mk part)) := by
  simp [parse_value_range, hsplit, h0]

theorem c3_witness :
    splitSep ['-'] ['1', '-', '3', '-', '5'] = [['1'], ['3'], ['5']] ∧
    (['1'] : List Char) ≠ [] ∧
    parse_value_range [] ['1', '-', '3', '-', '5'] ['-'] =
      .error (.StartBiggerThanEnd (String.mk ['1', '-', '3', '-', '5'])) :=
  ⟨by decide, by decide,
    c3_three_fragments_start_bigger_than_end ['-'] ['1', '-', '3', '-', '5'] []
      ['1'] ['3'] ['5'] (by decide) (by decide)⟩

/-- C4: for every non-empty range separator, whenever a part splits on it into
exactly 2 fragments with the first fragment empty, the part is parsed as a
single value, the parse of `"-" ++ fragment[1]` (the leading separator read as
a minus sign), appended to the output. -/
theorem c4_two_fragments_leading_empty (sep part : List Char) (acc : List Int)
    (f1 : List Char) (_hsep : sep ≠ []) (hsplit : splitSep sep part = [[], f1]) :
    parse_part acc part sep =
      match parse_as_t ('-' :: f1) with
      | .error err => .error err
      | .ok v => .ok (acc ++ [v]) := by
  have hc : containsSeq sep part = true := by
    by_contra hcf
    have hfalse : containsSeq sep part = false := by simpa using hcf
    have := splitSep_of_not_contains sep part hfalse
    rw [hsplit] at this
    exact absurd this (by simp)
  unfold parse_part
  rw [if_pos hc]
  simp [parse_value_range, hsplit]

theorem c4_witness :
    (['.', '.'] : List Char) ≠ [] ∧
    splitSep ['.', '.'] ['.', '.', '5'] = [[], ['5']] ∧
    parse_part [0] ['.', '.', '5'] ['.', '.'] =
      match parse_as_t ('-' :: ['5']) with
      | .error err => .error err
      | .ok v => .ok ([0] ++ [v]) :=
  ⟨by decide, by decide,
    c4_two_fragments_leading_empty ['.', '.'] ['.', '.', '5'] [0] ['5']
      (by decide) (by decide)⟩

/-- C5: at the fixed-width type `u8` with wrapping (release-mode) arithmetic,
the expansion loop does NOT terminate when `end` is `u8::MAX = 255`: no amount
of fuel makes the loop exit, because every `u8` value satisfies the guard
`x <= 255` and `x + 1` wraps `255` back to `0`.  This refutes the claim that
the loop terminates for every fixed-width type even when `end` is the maximum
representable value. -/
theorem c5_u8_max_expansion_diverges (fuel x : Nat) (acc : List Nat)
    (hx : x < 256) : expand_u8_loop fuel x 255 acc = none := by
  induction fuel generalizing x acc with
  | zero => rfl
  | succ f ih =>
    have hle : x ≤ 255 := by omega
    simp only [expand_u8_loop, if_pos hle]
    exact ih (addU8 x unitU8) (acc ++ [x]) (Nat.mod_lt _ (by omega))

theorem c5_witness : expand_u8_loop 300 250 255 [] = none :=
  c5_u8_max_expansion_diverges 300 250 [] (by decide)

/-- C6: for every pair `a > b`, `parse` on the string `f"{a}-{b}"` fails with
the `StartBiggerThanEnd` error naming the original part text. -/
theorem c6_start_bigger_than_end (a b : Int) (h : a > b) :
    parse (String.mk (formatPair a b)) =
      .error (.StartBiggerThanEnd (String.mk (formatPair a b))) := by
  rw [parse_formatPair a b]
  unfold finishRange
  rw [if_pos h]

theorem c6_witness :
    ((3 : Int) > 1) ∧
    parse (String.mk (formatPair 3 1)) =
      .error (.StartBiggerThanEnd (String.mk (formatPair 3 1))) :=
  ⟨by decide, c6_start_bigger_than_end 3 1 (by decide)⟩

/-- C7: `parse_with` returns `SeparatorsMustBeDifferent` exactly when the two
separators are textually identical; in that case it fails for every input, and
when they differ this error can never arise. -/
theorem c7_separators_must_be_different_iff (s vs rs : String) :
    parse_with s vs rs = .error .SeparatorsMustBeDifferent ↔ vs = rs := by
  unfold parse_with
  by_cases h : vs = rs
  · rw [if_pos h]
    exact iff_of_true rfl h
  · rw [if_neg h]
    exact iff_of_false (parse_parts_not_sep rs.data _ []) h

/-- C8: the output lists values in left-to-right part order, each part
contributing its own values in place (the whole output is the concatenation of
the per-part outputs), with ranges expanded ascending; concretely
`parse "1,3-5,2"` yields `[1,3,4,5,2]`. -/
theorem c8_output_order_preserved :
    parse "1,3-5,2" = .ok [1, 3, 4, 5, 2] ∧
    (∀ (s : String) (l : List Int), parse s = .ok l →
        l = ((splitSep [','] s.data).map partOutput).flatten) ∧
    (∀ x e : Int, expandLoop x e =
        (List.range (e + 1 - x).toNat).map (fun i : Nat => x + (i : Int))) := by
  refine ⟨by decide, ?_, expandLoop_eq⟩
  intro s l h
  unfold parse at h
  have hf := parse_parts_flatten ['-'] (splitSep [','] s.data) [] l h
  simpa [partOutput] using hf

theorem c8_witness :
    ([7] : List Int) = ((splitSep [','] ("7" : String).data).map partOutput).flatten :=
  c8_output_order_preserved.2.1 "7" [7] (by decide)

/-- C9: for every part splitting into exactly 4 fragments, the result depends
only on fragments 1 and 3 (start is the parse of `"-" ++ fragment[1]`, end the
parse of `"-" ++ fragment[3]`); fragments 0 and 2 are ignored, and
`parse "1-2-3-1"` succeeds with `[-2, -1]`. -/
theorem c9_four_fragments_use_only_1_and_3 :
    (∀ (sep part : List Char) (acc : List Int) (p0 p1 p2 p3 : List Char),
        splitSep sep part = [p0, p1, p2, p3] →
        parse_value_range acc part sep =
          match parse_as_t ('-' :: p1) with
          | .error err => .error err
          | .ok s =>
            match parse_as_t ('-' :: p3) with
            | .error err => .error err
            | .ok e => finishRange acc part s e) ∧
    parse "1-2-3-1" = .ok [-2, -1] := by
  refine ⟨?_, by decide⟩
  intro sep part acc p0 p1 p2 p3 hsplit
  simp [parse_value_range, hsplit]

theorem c9_witness :
    splitSep ['-'] ['9', '-', '2', '-', '3', '-', '8'] = [['9'], ['2'], ['3'], ['8']] ∧
    parse_value_range [] ['9', '-', '2', '-', '3', '-', '8'] ['-'] =
      match parse_as_t ('-' :: ['2']) with
      | .error err => .error err
      | .ok s =>
        match parse_as_t ('-' :: ['8']) with
        | .error err => .error err
        | .ok e => finishRange [] ['9', '-', '2', '-', '3', '-', '8'] s e :=
  ⟨by decide,
    c9_four_fragments_use_only_1_and_3.1 ['-'] ['9', '-', '2', '-', '3', '-', '8'] []
      ['9'] ['2'] ['3'] ['8'] (by decide)⟩

/-- C10: whitespace is trimmed per fragment after splitting, never on the whole
part: `parse "-5"` yields `[-5]`, but `parse " -5"` fails with `NotANumber` on
the fragment `" "` (the leading space makes the first fragment non-empty, so
the part is treated as an ordinary two-fragment range). -/
theorem c10_trim_per_fragment_after_split :
    parse "-5" = .ok [-5] ∧
    parse " -5" = .error (.NotANumber " ") := by
  refine ⟨by decide, by decide⟩

example : parse "1-3" = .ok [1, 2, 3] := by decide
example : parse "1,3,4" = .ok [1, 3, 4] := by decide
example : parse "1,3-5,2" = .ok [1, 3, 4, 5, 2] := by decide
example : parse "-8,-5--1,0-3,-1" = .ok [-8, -5, -4, -3, -2, -1, 0, 1, 2, 3, -1] := by decide
example : parse_with "-2;0..3;-1;7" ";" ".." = .ok [-2, 0, 1, 2, 3, -1, 7] := by decide
example : parse " 1 , 3 - 5 , 2 " = .ok [1, 3, 4, 5, 2] := by decide
example : parse "1-3-5" = .error (.StartBiggerThanEnd "1-3-5") := by decide
example : parse "3-1" = .error (.StartBiggerThanEnd "3-1") := by decide
example : parse "-2-3" = .ok [-2, -1, 0, 1, 2, 3] := by decide
example : parse "-3--1" = .ok [-3, -2, -1] := by decide

end RangeParser
